import Mathlib

/-!
Verification of the tree-walk algebra (src/common/treenode/src/lib.rs) and
the projection push-down optimizer rule
(src/daft-logical-plan/src/optimization/rules/push_down_projection.rs)
of the Daft query engine, via a shallow embedding in Lean.

Rust `Result` is embedded as `Except`, machine booleans as `Bool`, and the
unbounded recursion of `transform_down` / `transform_up` (which recurse into
the children of the *rewritten* node, hence are not structurally recursive)
is embedded with an explicit fuel parameter whose exhaustion is a designated
error value; every theorem about them either supplies enough fuel or takes a
successful run as a hypothesis.
-/

namespace DaftSpec

/-- Traversal signal `TreeNodeRecursion` (`Continue | Jump | Stop`) from
common/treenode. `Continue` is spelled `cont` because `continue` is a Lean
keyword. -/
inductive TreeNodeRecursion where
  | cont
  | jump
  | stop
deriving DecidableEq, Repr

/-- Result envelope `Transformed { data, transformed, tnr }` of the
transforming tree APIs. -/
structure Transformed (T : Type u) where
  data : T
  transformed : Bool
  tnr : TreeNodeRecursion
deriving DecidableEq, Repr

/-- `Transformed::new(data, transformed, tnr)`. -/
def Transformed.new (data : T) (transformed : Bool) (tnr : TreeNodeRecursion) :
    Transformed T :=
  ⟨data, transformed, tnr⟩

/-- `Transformed::yes(data)`: changed data with `Continue`. -/
def Transformed.yes (data : T) : Transformed T :=
  ⟨data, true, .cont⟩

/-- `Transformed::no(data)`: unchanged data with `Continue`. -/
def Transformed.no (data : T) : Transformed T :=
  ⟨data, false, .cont⟩

/-- `Transformed::update_data`. -/
def Transformed.update_data (t : Transformed T) (f : T → U) : Transformed U :=
  ⟨f t.data, t.transformed, t.tnr⟩

/-- `Transformed::map_data`: apply a fallible `f` to the payload, keeping the
`transformed` flag and the signal. -/
def Transformed.map_data (t : Transformed T) (f : T → Except ε U) :
    Except ε (Transformed U) :=
  (f t.data).map fun d => ⟨d, t.transformed, t.tnr⟩

/-- `Transformed::or`: keep `self` when it is transformed, otherwise `other`. -/
def Transformed.or (t : Transformed T) (other : Transformed T) : Transformed T :=
  if t.transformed then t else other

/-- `Transformed::transform_children`: on `Continue` run `f` on the payload and
OR the incoming `transformed` flag into its result; on `Jump` reset the signal
to `Continue` and return; on `Stop` return unchanged. -/
def Transformed.transform_children (t : Transformed T)
    (f : T → Except ε (Transformed T)) : Except ε (Transformed T) :=
  match t.tnr with
  | .cont => (f t.data).map fun r => { r with transformed := r.transformed || t.transformed }
  | .jump => .ok { t with tnr := .cont }
  | .stop => .ok t

/-- `Transformed::transform_parent`: run `f` on the payload only on `Continue`;
`Jump` and `Stop` return the envelope unchanged, skipping `f`. -/
def Transformed.transform_parent (t : Transformed T)
    (f : T → Except ε (Transformed T)) : Except ε (Transformed T) :=
  match t.tnr with
  | .cont => (f t.data).map fun r => { r with transformed := r.transformed || t.transformed }
  | .jump => .ok t
  | .stop => .ok t

/-- Loop body of `TreeNodeIterator::map_until_stop_and_collect`, threading the
running signal `tnr` and the accumulated `transformed` flag exactly as the
source closure does: while the signal is `Continue` or `Jump` apply `f` and
adopt its signal and OR its flag; once it is `Stop`, pass every remaining item
through unchanged. -/
def mapUntilStopAndCollectGo (f : β → Except ε (Transformed β)) :
    List β → TreeNodeRecursion → Bool → Except ε (List β × Bool × TreeNodeRecursion)
  | [], tnr, tr => .ok ([], tr, tnr)
  | item :: rest, tnr, tr =>
    match tnr with
    | .stop =>
      (mapUntilStopAndCollectGo f rest .stop tr).map fun out =>
        (item :: out.1, out.2)
    | .cont =>
      (f item).bind fun result =>
        (mapUntilStopAndCollectGo f rest result.tnr (tr || result.transformed)).map fun out =>
          (result.data :: out.1, out.2)
    | .jump =>
      (f item).bind fun result =>
        (mapUntilStopAndCollectGo f rest result.tnr (tr || result.transformed)).map fun out =>
          (result.data :: out.1, out.2)

/-- `TreeNodeIterator::map_until_stop_and_collect`. -/
def mapUntilStopAndCollect (f : β → Except ε (Transformed β)) (items : List β) :
    Except ε (Transformed (List β)) :=
  (mapUntilStopAndCollectGo f items .cont false).map fun out =>
    ⟨out.1, out.2.1, out.2.2⟩

/-- Blanket `TreeNode::map_children` for `Arc<T: DynTreeNode>`, parametrised by
the implementer-supplied `arc_children` and `with_new_arc_children`: when the
node has no children return `no(self)`; otherwise collect the child rewrites
and call `with_new_arc_children` only when the collected result is
`transformed`, else return the original node with `transformed = false` and
the collected signal. -/
def dynMapChildren (children : τ → List τ)
    (with_new_arc_children : τ → List τ → Except ε τ)
    (t : τ) (f : τ → Except ε (Transformed τ)) : Except ε (Transformed τ) :=
  let cs := children t
  if cs.isEmpty then
    .ok (Transformed.no t)
  else
    (mapUntilStopAndCollect f cs).bind fun new_children =>
      if new_children.transformed then
        new_children.map_data (with_new_arc_children t)
      else
        .ok ⟨t, false, new_children.tnr⟩

/-- Blanket `TreeNode::map_children` for `T: ConcreteTreeNode`, parametrised by
the implementer-supplied `take_children` and `with_new_children`: detach the
children, and when there are any, collect the child rewrites and reattach via
`with_new_children` unconditionally (no `transformed` test, unlike the
`DynTreeNode` form). -/
def concreteMapChildren (take_children : τ → τ × List τ)
    (with_new_children : τ → List τ → Except ε τ)
    (t : τ) (f : τ → Except ε (Transformed τ)) : Except ε (Transformed τ) :=
  let d := take_children t
  if d.2.isEmpty then
    .ok (Transformed.no d.1)
  else
    (mapUntilStopAndCollect f d.2).bind fun new_children =>
      new_children.map_data (with_new_children d.1)

/-- `TreeNode::transform_down` (pre-order rewrite): apply `f` to the node, then
`transform_children` with a `map_children` over the recursion. Fuel bounds the
recursion depth; exhaustion yields the designated error `fuelErr`. -/
def transformDownF (children : τ → List τ)
    (replace : τ → List τ → Except ε τ) (fuelErr : ε)
    (f : τ → Except ε (Transformed τ)) : Nat → τ → Except ε (Transformed τ)
  | 0, _ => .error fuelErr
  | fuel + 1, node =>
    (f node).bind fun r =>
      r.transform_children fun n =>
        dynMapChildren children replace n fun c =>
          transformDownF children replace fuelErr f fuel c

/-- `TreeNode::transform_up` (post-order rewrite): `map_children` over the
recursion first, then `transform_parent f`. Fuel bounds the recursion depth. -/
def transformUpF (children : τ → List τ)
    (replace : τ → List τ → Except ε τ) (fuelErr : ε)
    (f : τ → Except ε (Transformed τ)) : Nat → τ → Except ε (Transformed τ)
  | 0, _ => .error fuelErr
  | fuel + 1, node =>
    (dynMapChildren children replace node fun c =>
        transformUpF children replace fuelErr f fuel c).bind fun r =>
      r.transform_parent f

/-- Rose tree instantiating the tree-node contract, in the shape of the
source's `TestTreeNode` (a payload plus an ordered child list). -/
inductive Tree (α : Type u) where
  | node (data : α) (children : List (Tree α))
deriving Repr

/-- Payload of a tree node. -/
def Tree.data : Tree α → α
  | .node a _ => a

/-- Ordered children of a tree node (the `children` / `arc_children`
primitive). -/
def Tree.children : Tree α → List (Tree α)
  | .node _ cs => cs

/-- Canonical `with_new_children`: rebuild the node with the given children. -/
def Tree.withNewChildren : Tree α → List (Tree α) → Tree α
  | .node a _, cs => .node a cs

/-- Canonical `take_children`: detach the children, leaving a childless stem. -/
def Tree.takeChildren (t : Tree α) : Tree α × List (Tree α) :=
  (.node t.data [], t.children)

/-- Infallible canonical replace function for `Tree`, as used by a
well-behaved `DynTreeNode` implementer. -/
def Tree.replaceOk (t : Tree α) (cs : List (Tree α)) : Except ε (Tree α) :=
  .ok (t.withNewChildren cs)

/-- Infallible canonical reattach for the `ConcreteTreeNode` form. -/
def Tree.reattachOk (stem : Tree α) (cs : List (Tree α)) : Except ε (Tree α) :=
  .ok (stem.withNewChildren cs)

mutual

/-- Number of nodes of a tree (used only to budget fuel). -/
def Tree.size : Tree α → Nat
  | .node _ cs => 1 + Tree.sizeL cs

/-- Total number of nodes of a list of trees. -/
def Tree.sizeL : List (Tree α) → Nat
  | [] => 0
  | t :: ts => Tree.size t + Tree.sizeL ts

end

/-! ### Helper lemmas on the iterator combinator and the blanket impls -/

theorem mapUntilStopAndCollectGo_stop (f : β → Except ε (Transformed β)) :
    ∀ (items : List β) (tr : Bool),
      mapUntilStopAndCollectGo f items .stop tr = .ok (items, tr, .stop) := by
  intro items
  induction items with
  | nil => intro tr; rfl
  | cons a rest ih =>
    intro tr
    simp [mapUntilStopAndCollectGo, ih tr, Except.map]

theorem mapUntilStopAndCollectGo_length (f : β → Except ε (Transformed β)) :
    ∀ (items : List β) (tnr : TreeNodeRecursion) (tr : Bool) out,
      mapUntilStopAndCollectGo f items tnr tr = .ok out →
      out.1.length = items.length := by
  intro items
  induction items with
  | nil =>
    intro tnr tr out h
    simp [mapUntilStopAndCollectGo] at h
    simp [← h]
  | cons a rest ih =>
    intro tnr tr out h
    cases tnr with
    | stop =>
      simp [mapUntilStopAndCollectGo, mapUntilStopAndCollectGo_stop, Except.map] at h
      simp [← h]
    | cont =>
      simp [mapUntilStopAndCollectGo] at h
      cases hf : f a with
      | error e => rw [hf] at h; simp [Except.bind] at h
      | ok r =>
        rw [hf] at h
        simp [Except.bind] at h
        cases hgo : mapUntilStopAndCollectGo f rest r.tnr (tr || r.transformed) with
        | error e => rw [hgo] at h; simp [Except.map] at h
        | ok out2 =>
          rw [hgo] at h
          simp [Except.map] at h
          have := ih _ _ _ hgo
          simp [← h, this]
    | jump =>
      simp [mapUntilStopAndCollectGo] at h
      cases hf : f a with
      | error e => rw [hf] at h; simp [Except.bind] at h
      | ok r =>
        rw [hf] at h
        simp [Except.bind] at h
        cases hgo : mapUntilStopAndCollectGo f rest r.tnr (tr || r.transformed) with
        | error e => rw [hgo] at h; simp [Except.map] at h
        | ok out2 =>
          rw [hgo] at h
          simp [Except.map] at h
          have := ih _ _ _ hgo
          simp [← h, this]

theorem mapUntilStopAndCollectGo_all_no (f : β → Except ε (Transformed β)) :
    ∀ (items : List β), (∀ c ∈ items, f c = .ok (Transformed.no c)) →
      mapUntilStopAndCollectGo f items .cont false = .ok (items, false, .cont) := by
  intro items
  induction items with
  | nil => intro _; rfl
  | cons a rest ih =>
    intro h
    have ha := h a (by simp)
    simp [mapUntilStopAndCollectGo, ha, Except.bind, Transformed.no,
      ih (fun c hc => h c (by simp [hc])), Except.map]

theorem mapUntilStopAndCollect_all_no (f : β → Except ε (Transformed β))
    (items : List β) (h : ∀ c ∈ items, f c = .ok (Transformed.no c)) :
    mapUntilStopAndCollect f items = .ok ⟨items, false, .cont⟩ := by
  simp [mapUntilStopAndCollect, mapUntilStopAndCollectGo_all_no f items h, Except.map]

theorem dynMapChildren_empty (children : τ → List τ)
    (rep : τ → List τ → Except ε τ) (t : τ) (f : τ → Except ε (Transformed τ))
    (h : children t = []) :
    dynMapChildren children rep t f = .ok (Transformed.no t) := by
  simp [dynMapChildren, h]

theorem dynMapChildren_not_transformed (children : τ → List τ)
    (rep : τ → List τ → Except ε τ) (t : τ) (f : τ → Except ε (Transformed τ))
    (nc : Transformed (List τ))
    (hm : mapUntilStopAndCollect f (children t) = .ok nc)
    (hn : nc.transformed = false) :
    dynMapChildren children rep t f = .ok ⟨t, false, nc.tnr⟩ := by
  by_cases he : (children t).isEmpty
  · have : children t = [] := List.isEmpty_iff.mp he
    rw [this] at hm
    have : nc = ⟨[], false, .cont⟩ := by
      simp [mapUntilStopAndCollect, mapUntilStopAndCollectGo, Except.map] at hm
      exact hm.symm
    subst this
    simp [dynMapChildren, List.isEmpty_iff.mp he, Transformed.no]
  · simp [dynMapChildren, he, hm, Except.bind, hn]

theorem dynMapChildren_transformed (children : τ → List τ)
    (rep : τ → List τ → Except ε τ) (t : τ) (f : τ → Except ε (Transformed τ))
    (nc : Transformed (List τ))
    (he : children t ≠ [])
    (hm : mapUntilStopAndCollect f (children t) = .ok nc)
    (ht : nc.transformed = true) :
    dynMapChildren children rep t f = nc.map_data (rep t) := by
  have he' : ¬ (children t).isEmpty := by
    simpa [List.isEmpty_iff] using he
  simp [dynMapChildren, he', hm, Except.bind, ht]

theorem concreteMapChildren_nonempty (take : τ → τ × List τ)
    (rep : τ → List τ → Except ε τ) (t : τ) (f : τ → Except ε (Transformed τ))
    (nc : Transformed (List τ))
    (he : (take t).2 ≠ [])
    (hm : mapUntilStopAndCollect f ((take t).2) = .ok nc) :
    concreteMapChildren take rep t f = nc.map_data (rep (take t).1) := by
  have he' : ¬ ((take t).2).isEmpty := by
    simpa [List.isEmpty_iff] using he
  simp [concreteMapChildren, he', hm, Except.bind]

theorem tree_size_pos (t : Tree α) : 1 ≤ t.size := by
  cases t with
  | node a cs => simp [Tree.size]

theorem tree_sizeL_mem (c : Tree α) :
    ∀ (cs : List (Tree α)), c ∈ cs → c.size ≤ Tree.sizeL cs := by
  intro cs
  induction cs with
  | nil => intro h; cases h
  | cons a rest ih =>
    intro h
    rcases List.mem_cons.mp h with h | h
    · subst h; simp [Tree.sizeL]
    · have := ih h
      simp [Tree.sizeL]
      omega

theorem transformDownF_identity {α : Type u} {ε : Type v} (fe : ε) :
    ∀ (fuel : Nat) (t : Tree α), t.size ≤ fuel →
      transformDownF Tree.children Tree.replaceOk fe
        (fun x => .ok (Transformed.no x)) fuel t = .ok ⟨t, false, .cont⟩ := by
  intro fuel
  induction fuel with
  | zero =>
    intro t h
    have := tree_size_pos t
    omega
  | succ fuel ih =>
    intro t h
    cases t with
    | node a cs =>
      have hcs : ∀ c ∈ cs,
          transformDownF Tree.children Tree.replaceOk fe
            (fun x => .ok (Transformed.no x)) fuel c = .ok (Transformed.no c) := by
        intro c hc
        have h1 := tree_sizeL_mem c cs hc
        simp only [Tree.size] at h
        simpa [Transformed.no] using ih c (by omega)
      have hm := mapUntilStopAndCollect_all_no
        (fun c => transformDownF Tree.children Tree.replaceOk fe
          (fun x => .ok (Transformed.no x)) fuel c) cs hcs
      have hdyn := dynMapChildren_not_transformed Tree.children Tree.replaceOk
        (Tree.node a cs)
        (fun c => transformDownF Tree.children Tree.replaceOk fe
          (fun x => .ok (Transformed.no x)) fuel c)
        ⟨cs, false, .cont⟩ (by simpa [Tree.children] using hm) rfl
      simp only [Transformed.no] at hdyn
      simp [transformDownF, Except.bind, Transformed.no,
        Transformed.transform_children, hdyn, Except.map]

theorem transformUpF_identity {α : Type u} {ε : Type v} (fe : ε) :
    ∀ (fuel : Nat) (t : Tree α), t.size ≤ fuel →
      transformUpF Tree.children Tree.replaceOk fe
        (fun x => .ok (Transformed.no x)) fuel t = .ok ⟨t, false, .cont⟩ := by
  intro fuel
  induction fuel with
  | zero =>
    intro t h
    have := tree_size_pos t
    omega
  | succ fuel ih =>
    intro t h
    cases t with
    | node a cs =>
      have hcs : ∀ c ∈ cs,
          transformUpF Tree.children Tree.replaceOk fe
            (fun x => .ok (Transformed.no x)) fuel c = .ok (Transformed.no c) := by
        intro c hc
        have h1 := tree_sizeL_mem c cs hc
        simp only [Tree.size] at h
        simpa [Transformed.no] using ih c (by omega)
      have hm := mapUntilStopAndCollect_all_no
        (fun c => transformUpF Tree.children Tree.replaceOk fe
          (fun x => .ok (Transformed.no x)) fuel c) cs hcs
      have hdyn := dynMapChildren_not_transformed Tree.children Tree.replaceOk
        (Tree.node a cs)
        (fun c => transformUpF Tree.children Tree.replaceOk fe
          (fun x => .ok (Transformed.no x)) fuel c)
        ⟨cs, false, .cont⟩ (by simpa [Tree.children] using hm) rfl
      simp only [Transformed.no] at hdyn
      simp [transformUpF, Except.bind, hdyn, Transformed.no,
        Transformed.transform_parent, Except.map]

/-! ### Claim theorems for the tree algebra -/

/-- Claim C3: `transform_down` and `transform_up` with the closure
`x ↦ Transformed::no(x)` both return `changed = false`, signal `Continue`,
and the input tree itself, for any sufficient fuel. -/
theorem c3_transform_identity {α : Type u} {ε : Type v} (fe : ε)
    (t : Tree α) (fuel : Nat) (h : t.size ≤ fuel) :
    transformDownF Tree.children Tree.replaceOk fe
        (fun x => .ok (Transformed.no x)) fuel t = .ok ⟨t, false, .cont⟩
    ∧ transformUpF Tree.children Tree.replaceOk fe
        (fun x => .ok (Transformed.no x)) fuel t = .ok ⟨t, false, .cont⟩ :=
  ⟨transformDownF_identity fe fuel t h, transformUpF_identity fe fuel t h⟩

/-- Witness for C3 on a concrete two-node tree. -/
theorem c3_transform_identity_witness :
    Tree.size (Tree.node (0 : Nat) [Tree.node 1 []]) ≤ 2
    ∧ (transformDownF Tree.children Tree.replaceOk "fuel"
          (fun x => .ok (Transformed.no x)) 2 (Tree.node (0 : Nat) [Tree.node 1 []])
          = .ok ⟨Tree.node 0 [Tree.node 1 []], false, .cont⟩
       ∧ transformUpF Tree.children Tree.replaceOk "fuel"
          (fun x => .ok (Transformed.no x)) 2 (Tree.node (0 : Nat) [Tree.node 1 []])
          = .ok ⟨Tree.node 0 [Tree.node 1 []], false, .cont⟩) :=
  ⟨by decide,
   c3_transform_identity "fuel" (Tree.node (0 : Nat) [Tree.node 1 []]) 2 (by decide)⟩

/-- Closure returning every node unchanged with `changed = false`. -/
def fNo : Tree Nat → Except String (Transformed (Tree Nat)) :=
  fun c => .ok (Transformed.no c)

/-- Closure returning every node unchanged but with `changed = true`. -/
def fYes : Tree Nat → Except String (Transformed (Tree Nat)) :=
  fun c => .ok (Transformed.yes c)

/-- Replace function that reports (by failing) that it was invoked. -/
def repErr : Tree Nat → List (Tree Nat) → Except String (Tree Nat) :=
  fun _ _ => .error "reattach called"

/-- Claim C1 counterexample: on the two-node tree with the identity closure
(every child rewrite reports `changed = false`), the `ConcreteTreeNode`
blanket `map_children` still invokes `with_new_children` — the implementer's
error surfaces — instead of returning the original parent, so the claimed
"call `replace_children` iff some child changed" does not hold for both
blanket implementations; the `DynTreeNode` form behaves as claimed on the
same input. -/
theorem c1_counterexample :
    concreteMapChildren Tree.takeChildren repErr
        (Tree.node 0 [Tree.node 1 []]) fNo = .error "reattach called"
    ∧ fNo (Tree.node 1 []) = .ok (Transformed.no (Tree.node 1 []))
    ∧ dynMapChildren Tree.children repErr
        (Tree.node 0 [Tree.node 1 []]) fNo
        = .ok ⟨Tree.node 0 [Tree.node 1 []], false, .cont⟩ :=
  ⟨rfl, rfl, rfl⟩

/-- Claim C1 (amended): the `DynTreeNode` blanket `map_children` calls
`with_new_arc_children` iff some child rewrite reported `changed = true`
(parts 1-3: with no children, or with a collected result that is not
`transformed`, the original node is returned with `changed = false` for
*every* replace function; with a `transformed` collected result the result is
exactly `replace` applied to the new children). The `ConcreteTreeNode`
blanket impl instead calls `with_new_children` whenever the node has children,
regardless of the `changed` flags (part 4); with the canonical detach/reattach
pair it returns the reattached node carrying the collected flag and signal
(part 5), which is structurally the original parent when every child rewrite
returned its input unchanged. -/
theorem c1_map_children_replace_iff {τ : Type u} {α : Type w} {ε : Type v} :
    (∀ (children : τ → List τ) (rep : τ → List τ → Except ε τ) (t : τ)
        (f : τ → Except ε (Transformed τ)),
        children t = [] → dynMapChildren children rep t f = .ok (Transformed.no t))
    ∧ (∀ (children : τ → List τ) (rep : τ → List τ → Except ε τ) (t : τ)
        (f : τ → Except ε (Transformed τ)) (nc : Transformed (List τ)),
        mapUntilStopAndCollect f (children t) = .ok nc → nc.transformed = false →
        dynMapChildren children rep t f = .ok ⟨t, false, nc.tnr⟩)
    ∧ (∀ (children : τ → List τ) (rep : τ → List τ → Except ε τ) (t : τ)
        (f : τ → Except ε (Transformed τ)) (nc : Transformed (List τ)),
        children t ≠ [] → mapUntilStopAndCollect f (children t) = .ok nc →
        nc.transformed = true →
        dynMapChildren children rep t f = nc.map_data (rep t))
    ∧ (∀ (tk : τ → τ × List τ) (rep : τ → List τ → Except ε τ) (t : τ)
        (f : τ → Except ε (Transformed τ)) (nc : Transformed (List τ)),
        (tk t).2 ≠ [] → mapUntilStopAndCollect f ((tk t).2) = .ok nc →
        concreteMapChildren tk rep t f = nc.map_data (rep (tk t).1))
    ∧ (∀ (t : Tree α) (f : Tree α → Except ε (Transformed (Tree α)))
        (nc : Transformed (List (Tree α))),
        mapUntilStopAndCollect f t.children = .ok nc →
        concreteMapChildren Tree.takeChildren Tree.reattachOk t f =
          .ok ⟨.node t.data nc.data, nc.transformed, nc.tnr⟩) := by
  refine ⟨?_, ?_, ?_, ?_, ?_⟩
  · intro children rep t f h
    exact dynMapChildren_empty children rep t f h
  · intro children rep t f nc hm hn
    exact dynMapChildren_not_transformed children rep t f nc hm hn
  · intro children rep t f nc he hm ht
    exact dynMapChildren_transformed children rep t f nc he hm ht
  · intro tk rep t f nc he hm
    exact concreteMapChildren_nonempty tk rep t f nc he hm
  · intro t f nc hm
    by_cases he : t.children = []
    · have hnc : nc = ⟨[], false, .cont⟩ := by
        rw [he] at hm
        simp [mapUntilStopAndCollect, mapUntilStopAndCollectGo, Except.map] at hm
        exact hm.symm
      subst hnc
      simp [concreteMapChildren, Tree.takeChildren, he, Transformed.no]
    · have := concreteMapChildren_nonempty Tree.takeChildren Tree.reattachOk t f nc
        (by simpa [Tree.takeChildren] using he) (by simpa [Tree.takeChildren] using hm)
      rw [this]
      simp [Transformed.map_data, Tree.reattachOk, Tree.takeChildren,
        Tree.withNewChildren, Except.map]

/-- Witness for C1 (amended) at concrete inputs. -/
theorem c1_map_children_replace_iff_witness :
    dynMapChildren Tree.children Tree.replaceOk (Tree.node 0 []) fNo
      = .ok (Transformed.no (Tree.node 0 []))
    ∧ dynMapChildren Tree.children Tree.replaceOk (Tree.node 0 [Tree.node 1 []]) fNo
      = .ok ⟨Tree.node 0 [Tree.node 1 []], false, .cont⟩
    ∧ dynMapChildren Tree.children Tree.replaceOk (Tree.node 0 [Tree.node 1 []]) fYes
      = (Transformed.mk [Tree.node 1 []] true .cont).map_data
          (Tree.replaceOk (Tree.node 0 [Tree.node 1 []]))
    ∧ concreteMapChildren Tree.takeChildren Tree.reattachOk
        (Tree.node 0 [Tree.node 1 []]) fNo
      = (Transformed.mk [Tree.node 1 []] false .cont).map_data
          (Tree.reattachOk (Tree.node 0 []))
    ∧ concreteMapChildren Tree.takeChildren Tree.reattachOk
        (Tree.node 0 [Tree.node 1 []]) fNo
      = .ok ⟨Tree.node 0 [Tree.node 1 []], false, .cont⟩ := by
  have h := @c1_map_children_replace_iff (Tree Nat) Nat String
  exact
    ⟨h.1 Tree.children Tree.replaceOk (Tree.node 0 []) fNo rfl,
     h.2.1 Tree.children Tree.replaceOk
       (Tree.node 0 [Tree.node 1 []]) fNo ⟨[Tree.node 1 []], false, .cont⟩ rfl rfl,
     h.2.2.1 Tree.children Tree.replaceOk
       (Tree.node 0 [Tree.node 1 []]) fYes ⟨[Tree.node 1 []], true, .cont⟩
       (List.cons_ne_nil _ _) rfl rfl,
     h.2.2.2.1 Tree.takeChildren Tree.reattachOk
       (Tree.node 0 [Tree.node 1 []]) fNo ⟨[Tree.node 1 []], false, .cont⟩
       (List.cons_ne_nil _ _) rfl,
     h.2.2.2.2 (Tree.node 0 [Tree.node 1 []]) fNo
       ⟨[Tree.node 1 []], false, .cont⟩ rfl⟩

/-- Rewriting closure for the C4 counterexample: on the node with payload 1 it
returns `Jump` (unchanged); on any other node it rewrites the payload to 7
with `changed = true`. -/
def c4f : Tree Nat → Except String (Transformed (Tree Nat))
  | .node 1 cs => .ok ⟨.node 1 cs, false, .jump⟩
  | t => .ok ⟨.node 7 t.children, true, .cont⟩

/-- Claim C4 counterexample: in `transform_up` on the two-node tree, the only
child's `f` returns `Jump`; the claim says the parent's own application of `f`
still takes place, which would rewrite the root payload to 7 with
`changed = true` (second conjunct shows what `f` does at the root). The actual
result keeps the root unchanged with `changed = false` and signal `Jump`:
`transform_parent` skipped `f` at the parent. -/
theorem c4_counterexample :
    transformUpF Tree.children Tree.replaceOk "fuel" c4f 2
        (Tree.node 0 [Tree.node 1 []])
      = .ok ⟨Tree.node 0 [Tree.node 1 []], false, .jump⟩
    ∧ c4f (Tree.node 0 [Tree.node 1 []])
      = .ok ⟨Tree.node 7 [Tree.node 1 []], true, .cont⟩ :=
  ⟨rfl, rfl⟩

/-- Claim C4 (amended): in `transform_up`, after `map_children` rewrites the
node's children, the closure `f` is applied to the node itself iff the
collected result carries the `Continue` signal; a `Jump` (or `Stop`) arising
from a child's rewrite is propagated by `map_children` and makes
`transform_parent` return without applying `f`, so the parent's own
application of `f` is skipped. -/
theorem c4_transform_up_parent_signal {τ : Type u} {ε : Type v}
    (children : τ → List τ) (rep : τ → List τ → Except ε τ) (fe : ε)
    (f : τ → Except ε (Transformed τ)) (fuel : Nat) (t : τ) (r : Transformed τ)
    (h : dynMapChildren children rep t
          (fun c => transformUpF children rep fe f fuel c) = .ok r) :
    (r.tnr = .cont → transformUpF children rep fe f (fuel + 1) t
        = (f r.data).map fun u => ⟨u.data, u.transformed || r.transformed, u.tnr⟩)
    ∧ (r.tnr = .jump → transformUpF children rep fe f (fuel + 1) t = .ok r)
    ∧ (r.tnr = .stop → transformUpF children rep fe f (fuel + 1) t = .ok r) := by
  obtain ⟨d, tr, tnr⟩ := r
  refine ⟨?_, ?_, ?_⟩ <;> intro htnr <;> simp only at htnr <;> subst htnr <;>
    simp [transformUpF, h, Except.bind, Transformed.transform_parent, Except.map]

/-- Witness for C4 (amended) on a concrete leaf (collected signal `Continue`,
so `f` runs at the node). -/
theorem c4_transform_up_parent_signal_witness :
    transformUpF Tree.children Tree.replaceOk "fuel" fYes 1 (Tree.node 0 [])
      = .ok ⟨Tree.node 0 [], true, .cont⟩ := by
  have h := (c4_transform_up_parent_signal Tree.children Tree.replaceOk "fuel"
    fYes 0 (Tree.node 0 []) ⟨Tree.node 0 [], false, .cont⟩ rfl).1 rfl
  simpa [fYes, Transformed.yes, Except.map] using h

theorem mapUntilStopAndCollectGo_stop_decomp (f : β → Except ε (Transformed β))
    (x d : β) (c : Bool) (post : List β) (hx : f x = .ok ⟨d, c, .stop⟩) :
    ∀ (pre : List β) (rs : List (Transformed β)),
      List.Forall₂ (fun a r => f a = .ok r ∧ r.tnr ≠ .stop) pre rs →
      ∀ (tnr : TreeNodeRecursion) (tr : Bool), tnr ≠ .stop →
      mapUntilStopAndCollectGo f (pre ++ x :: post) tnr tr =
        .ok (rs.map (·.data) ++ d :: post,
             (tr || rs.any (·.transformed)) || c, .stop) := by
  intro pre rs hf
  induction hf with
  | nil =>
    intro tnr tr htnr
    cases tnr with
    | stop => exact absurd rfl htnr
    | cont =>
      simp [mapUntilStopAndCollectGo, hx, Except.bind,
        mapUntilStopAndCollectGo_stop, Except.map]
    | jump =>
      simp [mapUntilStopAndCollectGo, hx, Except.bind,
        mapUntilStopAndCollectGo_stop, Except.map]
  | @cons a r pre' rs' ha hrest ih =>
    intro tnr tr htnr
    obtain ⟨hfa, hra⟩ := ha
    cases tnr with
    | stop => exact absurd rfl htnr
    | cont =>
      have hih := ih r.tnr (tr || r.transformed) hra
      simp [mapUntilStopAndCollectGo, hfa, Except.bind, hih, Except.map,
        Bool.or_assoc]
    | jump =>
      have hih := ih r.tnr (tr || r.transformed) hra
      simp [mapUntilStopAndCollectGo, hfa, Except.bind, hih, Except.map,
        Bool.or_assoc]

/-- Claim C9: `map_until_stop_and_collect` (1) preserves the length of the
input sequence; and (2) once some element's rewrite carries `Stop`, `f` is not
applied to any later element — every later element appears unchanged in the
output — while the returned flag is the OR of the `changed` flags of the
invocations that ran and the returned signal is `Stop`. -/
theorem c9_map_until_stop_and_collect {β : Type u} {ε : Type v} :
    (∀ (f : β → Except ε (Transformed β)) (items : List β)
        (r : Transformed (List β)),
        mapUntilStopAndCollect f items = .ok r → r.data.length = items.length)
    ∧ (∀ (f : β → Except ε (Transformed β)) (pre : List β)
        (rs : List (Transformed β)) (x d : β) (c : Bool) (post : List β),
        List.Forall₂ (fun a r => f a = .ok r ∧ r.tnr ≠ .stop) pre rs →
        f x = .ok ⟨d, c, .stop⟩ →
        mapUntilStopAndCollect f (pre ++ x :: post) =
          .ok ⟨rs.map (·.data) ++ d :: post,
               rs.any (·.transformed) || c, .stop⟩) := by
  constructor
  · intro f items r h
    simp only [mapUntilStopAndCollect] at h
    cases hgo : mapUntilStopAndCollectGo f items .cont false with
    | error e => rw [hgo] at h; simp [Except.map] at h
    | ok out =>
      rw [hgo] at h
      simp [Except.map] at h
      have := mapUntilStopAndCollectGo_length f items .cont false out hgo
      rw [← h]
      exact this
  · intro f pre rs x d c post hpre hx
    have := mapUntilStopAndCollectGo_stop_decomp f x d c post hx pre rs hpre
      .cont false (by simp)
    simp [mapUntilStopAndCollect, this, Except.map]

/-- Closure for the C9 witness: stops at item 1, rewriting it to 5; otherwise
increments with `changed = false`. -/
def c9f : Nat → Except String (Transformed Nat) :=
  fun n => if n = 1 then .ok ⟨5, true, .stop⟩ else .ok ⟨n + 1, false, .cont⟩

/-- Witness for C9 at a concrete input: item 2 (after the stopping item 1)
passes through unchanged and `f` is never applied to it. -/
theorem c9_map_until_stop_and_collect_witness :
    mapUntilStopAndCollect c9f ([0] ++ 1 :: [2]) =
      .ok ⟨[Transformed.mk 1 false .cont].map (·.data) ++ 5 :: [2],
           [Transformed.mk 1 false .cont].any (·.transformed) || true, .stop⟩
    ∧ ([1, 5, 2] : List Nat).length = ([0, 1, 2] : List Nat).length :=
  ⟨c9_map_until_stop_and_collect.2 c9f [0] [⟨1, false, .cont⟩] 1 5 true [2]
     (List.Forall₂.cons ⟨rfl, by decide⟩ List.Forall₂.nil) rfl,
   c9_map_until_stop_and_collect.1 c9f [0, 1, 2] ⟨[1, 5, 2], true, .stop⟩ rfl⟩

/-!
### L2: logical-plan data model and the projection push-down rule

The rule itself (push_down_projection.rs) is translated from the source. The
operator/expression data model it consumes (daft-dsl expressions,
daft-logical-plan operators with `schema()` / `required_columns()` /
`with_new_children`) is not part of the provided sources, so it is modelled
from the spec (sections 3, 6.3, 6.4), with orders pinned by the expected
plans of the rule's own test module where those tests constrain them.
-/

/-- Modelled from the spec: expression tree nodes (section 3) — bare column
references, literals, aliases, and all other operators as Function-shaped; a
UDF call is a Function carrying a udf marker used by `is_udf`. -/
inductive Expr where
  | column (name : String)
  | literal (v : Nat)
  | alias (inner : Expr) (name : String)
  | function (fname : String) (udf : Bool) (children : List Expr)
deriving Repr

/-- Modelled from the spec: the output column name of an expression; a
composite takes the name of its first input, an alias its own. -/
def Expr.name : Expr → String
  | .column n => n
  | .literal _ => "literal"
  | .alias _ n => n
  | .function n _ [] => n
  | .function _ _ (c :: _) => c.name

/-- Children of an expression node. -/
def Expr.children : Expr → List Expr
  | .column _ => []
  | .literal _ => []
  | .alias e _ => [e]
  | .function _ _ cs => cs

mutual

/-- Modelled from the spec: `get_required_columns` — the leaf column names
referenced by an expression, in occurrence order, duplicates kept. -/
def Expr.requiredColumns : Expr → List String
  | .column n => [n]
  | .literal _ => []
  | .alias e _ => e.requiredColumns
  | .function _ _ cs => Expr.requiredColumnsL cs

/-- Required columns of a list of expressions, concatenated in order. -/
def Expr.requiredColumnsL : List Expr → List String
  | [] => []
  | e :: es => e.requiredColumns ++ Expr.requiredColumnsL es

end

/-- Modelled from the spec: `requires_computation` — anything but a bare
column reference, a literal, or an alias of such (section 4.2.1 (f)). -/
def Expr.requiresComputation : Expr → Bool
  | .column _ => false
  | .literal _ => false
  | .alias e _ => e.requiresComputation
  | .function _ _ _ => true

/-- Modelled from the spec: `input_mapping` is `Some` input column when the
expression is a plain rename of one input column; `None` means computation is
required (section 4.2.1 (b)). -/
def Expr.inputMapping : Expr → Option String
  | .column n => some n
  | .literal _ => none
  | .alias e _ => e.inputMapping
  | .function _ _ _ => none

mutual

/-- `expr.exists(is_udf)`: whether any node of the expression is a UDF call. -/
def Expr.containsUdf : Expr → Bool
  | .column _ => false
  | .literal _ => false
  | .alias e _ => e.containsUdf
  | .function _ u cs => u || Expr.containsUdfL cs

/-- Any-UDF over a list of expressions. -/
def Expr.containsUdfL : List Expr → Bool
  | [] => false
  | e :: es => e.containsUdf || Expr.containsUdfL es

end

/-- Lookup in an insertion-ordered association list with the overwrite
semantics of a HashMap built by successive inserts: the last binding for a
name wins. -/
def lookupLast (m : List (String × Expr)) (n : String) : Option Expr :=
  (m.reverse.find? fun p => p.1 == n).map (·.2)

mutual

/-- Modelled from the spec: `replace_columns_with_expressions` — substitute
every bare column reference whose name is bound in the map by the mapped
expression (section 4.2.1 (b)). -/
def Expr.replaceColumns (m : List (String × Expr)) : Expr → Expr
  | .column n =>
    match lookupLast m n with
    | some e => e
    | none => .column n
  | .literal v => .literal v
  | .alias e n => .alias (e.replaceColumns m) n
  | .function f u cs => .function f u (Expr.replaceColumnsL m cs)

/-- Column substitution over a list of expressions. -/
def Expr.replaceColumnsL (m : List (String × Expr)) : List Expr → List Expr
  | [] => []
  | e :: es => e.replaceColumns m :: Expr.replaceColumnsL m es

end

/-- Append an element to an insertion-ordered duplicate-free list unless it is
already present (IndexSet insert). -/
def dedupInsert (acc : List String) (x : String) : List String :=
  if acc.contains x then acc else acc ++ [x]

/-- Collect a string list into first-occurrence order without duplicates
(IndexSet collect). -/
def dedupList (xs : List String) : List String :=
  xs.foldl dedupInsert []

/-- First-duplicate check used by the UDF-inline gate: every name distinct. -/
def allDistinct : List String → Bool
  | [] => true
  | x :: xs => !xs.contains x && allDistinct xs

/-- Modelled from the spec (section 6.4): the scan pushdown object; the rule
reads and writes only `columns`, the other fields (represented by a limit)
ride along unchanged. -/
structure Pushdowns where
  columns : Option (List String)
  limit : Option Nat
deriving Repr

/-- `Pushdowns::with_columns`. -/
def Pushdowns.with_columns (p : Pushdowns) (cols : Option (List String)) :
    Pushdowns :=
  { p with columns := cols }

/-- Modelled from the spec (section 6.3): source info is `InMemory`,
`Physical` (scan with pushdowns), or `PlaceHolder`. -/
inductive SourceInfo where
  | inMemory
  | physical (pushdowns : Pushdowns)
  | placeHolder
deriving Repr

/-- Join type (section 6.3). -/
inductive JoinType where
  | inner
  | left
  | right
  | outer
  | semi
  | anti
deriving DecidableEq, Repr

/-- Modelled from the spec (section 6.3): the logical-plan operators the rule
recognises, with the fields it reads. -/
inductive Plan where
  | source (schema : List String) (info : SourceInfo)
  | project (input : Plan) (projection : List Expr)
  | udfProject (input : Plan) (project : Expr) (passthrough_columns : List Expr)
  | aggregate (input : Plan) (aggregations : List Expr) (groupby : List Expr)
  | filter (input : Plan) (predicate : Expr)
  | sort (input : Plan) (sort_by : List Expr)
  | limit (input : Plan) (n : Nat)
  | topN (input : Plan) (sort_by : List Expr) (n : Nat)
  | sample (input : Plan) (fraction : Nat)
  | explode (input : Plan) (to_explode : List Expr)
  | repartition (input : Plan) (by_exprs : List Expr)
  | shard (input : Plan) (strategy : Nat)
  | unpivot (input : Plan) (ids : List Expr) (values : List Expr)
      (variable_name : String) (value_name : String)
  | concat (input : Plan) (other : Plan)
  | join (left : Plan) (right : Plan) (left_on : List Expr)
      (right_on : List Expr) (join_type : JoinType)
  | distinct (input : Plan) (columns : Option (List Expr))
  | pivot (input : Plan) (group_by : List Expr) (pivot_col : Expr)
      (value_col : Expr) (names : List String)
  | monotonicallyIncreasingId (input : Plan) (column_name : String)
  | window (input : Plan) (window_fns : List Expr)
  | intersect (lhs : Plan) (rhs : Plan)
  | sink (input : Plan)
  | union (lhs : Plan) (rhs : Plan)
  | subqueryAlias (input : Plan) (alias_name : String)
deriving Repr

/-- Ordered child plans of an operator. -/
def Plan.children : Plan → List Plan
  | .source _ _ => []
  | .project i _ => [i]
  | .udfProject i _ _ => [i]
  | .aggregate i _ _ => [i]
  | .filter i _ => [i]
  | .sort i _ => [i]
  | .limit i _ => [i]
  | .topN i _ _ => [i]
  | .sample i _ => [i]
  | .explode i _ => [i]
  | .repartition i _ => [i]
  | .shard i _ => [i]
  | .unpivot i _ _ _ _ => [i]
  | .concat i o => [i, o]
  | .join l r _ _ _ => [l, r]
  | .distinct i _ => [i]
  | .pivot i _ _ _ _ => [i]
  | .monotonicallyIncreasingId i _ => [i]
  | .window i _ => [i]
  | .intersect l r => [l, r]
  | .sink i => [i]
  | .union l r => [l, r]
  | .subqueryAlias i _ => [i]

/-- `with_new_children`: rebuild the operator with the given child plans in
order (the source panics on arity mismatch; the rule always passes matching
arity, so missing positions keep the old child). -/
def Plan.withNewChildren : Plan → List Plan → Plan
  | .source s info, _ => .source s info
  | .project i ps, cs => .project (cs.headD i) ps
  | .udfProject i p pass, cs => .udfProject (cs.headD i) p pass
  | .aggregate i ags gb, cs => .aggregate (cs.headD i) ags gb
  | .filter i pr, cs => .filter (cs.headD i) pr
  | .sort i k, cs => .sort (cs.headD i) k
  | .limit i n, cs => .limit (cs.headD i) n
  | .topN i k n, cs => .topN (cs.headD i) k n
  | .sample i fr, cs => .sample (cs.headD i) fr
  | .explode i e, cs => .explode (cs.headD i) e
  | .repartition i b, cs => .repartition (cs.headD i) b
  | .shard i st, cs => .shard (cs.headD i) st
  | .unpivot i ids vals vr vl, cs => .unpivot (cs.headD i) ids vals vr vl
  | .concat i o, cs => .concat (cs.headD i) ((cs.drop 1).headD o)
  | .join l r lo ro ty, cs => .join (cs.headD l) ((cs.drop 1).headD r) lo ro ty
  | .distinct i c, cs => .distinct (cs.headD i) c
  | .pivot i gb pc vc ns, cs => .pivot (cs.headD i) gb pc vc ns
  | .monotonicallyIncreasingId i c, cs => .monotonicallyIncreasingId (cs.headD i) c
  | .window i w, cs => .window (cs.headD i) w
  | .intersect l r, cs => .intersect (cs.headD l) ((cs.drop 1).headD r)
  | .sink i, cs => .sink (cs.headD i)
  | .union l r, cs => .union (cs.headD l) ((cs.drop 1).headD r)
  | .subqueryAlias i a, cs => .subqueryAlias (cs.headD i) a

/-- Modelled from the spec: `schema()` — the ordered list of output field
names of each operator (section 3); orders follow the spec's scenarios (a
`UDFProject` lists its passthrough columns then the UDF output column, as in
scenario S9 and the double-UDF test). -/
def Plan.schema : Plan → List String
  | .source s _ => s
  | .project _ ps => ps.map Expr.name
  | .udfProject _ p pass => pass.map Expr.name ++ [p.name]
  | .aggregate _ ags gb => gb.map Expr.name ++ ags.map Expr.name
  | .filter i _ => i.schema
  | .sort i _ => i.schema
  | .limit i _ => i.schema
  | .topN i _ _ => i.schema
  | .sample i _ => i.schema
  | .explode i _ => i.schema
  | .repartition i _ => i.schema
  | .shard i _ => i.schema
  | .unpivot _ ids _ vr vl => ids.map Expr.name ++ [vr, vl]
  | .concat i _ => i.schema
  | .join l r _ _ ty =>
    match ty with
    | .semi => l.schema
    | .anti => l.schema
    | _ => l.schema ++ r.schema
  | .distinct i _ => i.schema
  | .pivot _ gb _ _ ns => gb.map Expr.name ++ ns
  | .monotonicallyIncreasingId i c => c :: i.schema
  | .window i w => i.schema ++ w.map Expr.name
  | .intersect l _ => l.schema
  | .sink i => i.schema
  | .union l _ => l.schema
  | .subqueryAlias i _ => i.schema

/-- Modelled from the spec: `required_columns()` — one ordered set (IndexSet,
first-occurrence order) of needed input columns per child (section 3); the
aggregate order (aggregations before groupby) and the unpivot content
(ids and values) are pinned by the expected pushdown column lists of the
rule's own tests (`test_projection_aggregation`,
`test_projection_pushdown_with_unpivot`). -/
def Plan.requiredColumns : Plan → List (List String)
  | .source _ _ => []
  | .project _ ps => [dedupList (Expr.requiredColumnsL ps)]
  | .udfProject _ p pass =>
    [dedupList (p.requiredColumns ++ Expr.requiredColumnsL pass)]
  | .aggregate _ ags gb =>
    [dedupList (Expr.requiredColumnsL ags ++ Expr.requiredColumnsL gb)]
  | .filter _ pr => [dedupList pr.requiredColumns]
  | .sort _ k => [dedupList (Expr.requiredColumnsL k)]
  | .limit _ _ => [[]]
  | .topN _ k _ => [dedupList (Expr.requiredColumnsL k)]
  | .sample _ _ => [[]]
  | .explode _ e => [dedupList (Expr.requiredColumnsL e)]
  | .repartition _ b => [dedupList (Expr.requiredColumnsL b)]
  | .shard _ _ => [[]]
  | .unpivot _ ids vals _ _ =>
    [dedupList (Expr.requiredColumnsL ids ++ Expr.requiredColumnsL vals)]
  | .concat _ _ => [[], []]
  | .join _ _ lo ro _ =>
    [dedupList (Expr.requiredColumnsL lo), dedupList (Expr.requiredColumnsL ro)]
  | .distinct i c =>
    match c with
    | some cols => [dedupList (Expr.requiredColumnsL cols)]
    | none => [i.schema]
  | .pivot _ gb pc vc _ =>
    [dedupList (Expr.requiredColumnsL gb ++ pc.requiredColumns ++ vc.requiredColumns)]
  | .monotonicallyIncreasingId _ _ => [[]]
  | .window _ w => [dedupList (Expr.requiredColumnsL w)]
  | .intersect _ _ => [[], []]
  | .sink _ => [[]]
  | .union _ _ => [[], []]
  | .subqueryAlias _ _ => [[]]

mutual

/-- One node of the duplicate-use walk of the projection-merge gate
(push_down_projection.rs lines 80-108): on a column reference naming an
upstream computed column, fail if it was seen before, else record it; children
are walked only while the flag is still okay. The source drains a level-order
worklist; only the okay flag escapes, and a false flag is absorbing, so the
structural visit computes the same flag. -/
def mergeWalkE (comps : List String) : Expr → List String → Bool → List String × Bool
  | _, used, false => (used, false)
  | .column n, used, true =>
    if comps.contains n then
      if used.contains n then (used, false) else (used ++ [n], true)
    else (used, true)
  | .literal _, used, true => (used, true)
  | .alias e _, used, true => mergeWalkE comps e used true
  | .function _ _ cs, used, true => mergeWalkL comps cs used true

/-- Duplicate-use walk over a list of expressions, threading the state. -/
def mergeWalkL (comps : List String) : List Expr → List String → Bool → List String × Bool
  | [], used, okay => (used, okay)
  | e :: es, used, okay =>
    let s := mergeWalkE comps e used okay
    mergeWalkL comps es s.1 s.2

end

/-- `PushDownProjection::try_optimize_udf_project` (lines 589-615): insert a
pruning projection below a stand-alone `UDFProject` when it requires strictly
fewer columns than its input produces. No re-entry into `try_optimize_node`. -/
def tryOptimizeUdfProject (input : Plan) (plan : Plan) :
    Except String (Transformed Plan) :=
  match plan.requiredColumns with
  | udf_project_required_cols :: _ =>
    if udf_project_required_cols.length < input.schema.length then
      let new_subprojection :=
        Plan.project input (udf_project_required_cols.map Expr.column)
      .ok (Transformed.yes (plan.withNewChildren [new_subprojection]))
    else
      .ok (Transformed.no plan)
  | [] => .error "index out of bounds"

/-- `PushDownProjection::try_optimize_aggregation` (lines 617-643). -/
def tryOptimizeAggregation (input : Plan) (plan : Plan) :
    Except String (Transformed Plan) :=
  match plan.requiredColumns with
  | aggregation_required_cols :: _ =>
    if aggregation_required_cols.length < input.schema.length then
      let new_subprojection :=
        Plan.project input (aggregation_required_cols.map Expr.column)
      .ok (Transformed.yes (plan.withNewChildren [new_subprojection]))
    else
      .ok (Transformed.no plan)
  | [] => .error "index out of bounds"

/-- `PushDownProjection::try_optimize_pivot` (lines 686-712). -/
def tryOptimizePivot (input : Plan) (plan : Plan) :
    Except String (Transformed Plan) :=
  match plan.requiredColumns with
  | pivot_required_cols :: _ =>
    if pivot_required_cols.length < input.schema.length then
      let new_subprojection :=
        Plan.project input (pivot_required_cols.map Expr.column)
      .ok (Transformed.yes (plan.withNewChildren [new_subprojection]))
    else
      .ok (Transformed.no plan)
  | [] => .error "index out of bounds"

/-- The no-op condition of push_down_projection.rs lines 39-52: the projection
selects exactly all upstream columns in the same order and nothing else. -/
def projectionIsNoop (projs : List Expr) (upstream_schema : List String) : Bool :=
  upstream_schema.length == projs.length &&
    (List.zip projs upstream_schema).all fun p =>
      match p.1 with
      | .column n => n == p.2
      | _ => false

/-- The re-entry idiom repeated after every local rewrite of the rule:
`self.try_optimize_node(new_plan)?.or(Transformed::yes(new_plan))`; the
`self.try_optimize_node` capability of the Rust methods is passed in as the
`reenter` argument (instantiated with `tryOptimizeNode fuel`). -/
def retryNode (reenter : Plan → Except String (Transformed Plan))
    (new_plan : Plan) : Except String (Transformed Plan) :=
  (reenter new_plan).map fun r => r.or (Transformed.yes new_plan)

/-- `PushDownProjection::try_optimize_project` (push_down_projection.rs lines
29-587); `input` and `projs` are the fields of the root projection, `plan` the
projection node itself. Panics (`unreachable!`, sink/placeholder/union/alias)
are embedded as errors; `Project::try_new` and friends are the plain
constructors (their validation is outside the provided sources). The merge
attempt and the big upstream match are fused into one match, the `Project`
arm running the merge first and falling back to pruning exactly as the
source's control flow does. -/
def tryOptimizeProject (reenter : Plan → Except String (Transformed Plan))
    (input : Plan) (projs : List Expr)
    (plan : Plan) : Except String (Transformed Plan) :=
  let upstream_schema := input.schema
  if projectionIsNoop projs upstream_schema then
    retryNode reenter input
  else
    match input with
    | .project uu up_projs =>
      let upstream_computations := dedupList (up_projs.filterMap fun e =>
        match e.inputMapping with
        | none => some e.name
        | some _ => none)
      let okay_to_merge := (mergeWalkL upstream_computations projs [] true).2
      if okay_to_merge then
        let upstream_names_to_exprs := up_projs.map fun e => (e.name, e)
        let merged_projection := projs.map (Expr.replaceColumns upstream_names_to_exprs)
        let new_plan := Plan.project uu merged_projection
        retryNode reenter new_plan
      else
        match plan.requiredColumns with
        | required_columns :: _ =>
          if required_columns.length < upstream_schema.length then
            let pruned := up_projs.filter fun e => required_columns.contains e.name
            let new_upstream := Plan.project uu pruned
            let new_plan := plan.withNewChildren [new_upstream]
            retryNode reenter new_plan
          else
            .ok (Transformed.no plan)
        | [] => .error "index out of bounds"
    | .source s info =>
      match plan.requiredColumns with
      | [required_columns] =>
        match info with
        | .physical external_info =>
          if required_columns.length < upstream_schema.length then
            let pruned_upstream_schema := s.filter fun f => required_columns.contains f
            let new_source := Plan.source pruned_upstream_schema
              (.physical (external_info.with_columns (some required_columns)))
            let new_plan := plan.withNewChildren [new_source]
            retryNode reenter new_plan
          else
            .ok (Transformed.no plan)
        | .inMemory => .ok (Transformed.no plan)
        | .placeHolder => .error "PlaceHolderInfo should not exist for optimization"
      | _ => .error "unreachable"
    | .aggregate uu ags gb =>
      match plan.requiredColumns with
      | required_columns :: _ =>
        let pruned_aggregate_exprs := ags.filter fun e => required_columns.contains e.name
        if pruned_aggregate_exprs.length < ags.length then
          let new_upstream := Plan.aggregate uu pruned_aggregate_exprs gb
          let new_plan := plan.withNewChildren [new_upstream]
          retryNode reenter new_plan
        else
          .ok (Transformed.no plan)
      | [] => .error "index out of bounds"
    | .udfProject uu uproj upass =>
      match plan.requiredColumns with
      | required_columns :: _ =>
        if !(required_columns.contains uproj.name) then
          let new_child := Plan.project uu upass
          let new_plan := plan.withNewChildren [new_child]
          retryNode reenter new_plan
        else if (projs.all fun e => !e.requiresComputation) &&
            allDistinct (projs.flatMap Expr.requiredColumns) then
          let actor_pool_projection_map :=
            (upass.map fun e => (e.name, e)) ++ [(uproj.name, uproj)]
          let new_actor_pool_projections :=
            projs.map (Expr.replaceColumns actor_pool_projection_map)
          let part := new_actor_pool_projections.partition Expr.containsUdf
          let new_plan :=
            if !part.1.isEmpty then
              Plan.udfProject uu (part.1.headD uproj) part.2
            else
              Plan.project uu new_actor_pool_projections
          retryNode reenter new_plan
        else if required_columns.length < upstream_schema.length then
          let pruned_upstream_projections :=
            upass.filter fun e => required_columns.contains e.name
          let new_upstream := Plan.udfProject uu uproj pruned_upstream_projections
          let new_plan := plan.withNewChildren [new_upstream]
          retryNode reenter new_plan
        else
          .ok (Transformed.no plan)
      | [] => .error "index out of bounds"
    | .sort _ _ | .shard _ _ | .repartition _ _ | .limit _ _ | .topN _ _ _
    | .filter _ _ | .sample _ _ | .explode _ _ =>
      let combined_dependencies :=
        dedupList (plan.requiredColumns.flatten ++ input.requiredColumns.flatten)
      match input.children with
      | grand_upstream_plan :: _ =>
        if grand_upstream_plan.schema.length == combined_dependencies.length then
          .ok (Transformed.no plan)
        else
          let new_subprojection :=
            Plan.project grand_upstream_plan (combined_dependencies.map Expr.column)
          let new_upstream := input.withNewChildren [new_subprojection]
          let new_plan := plan.withNewChildren [new_upstream]
          retryNode reenter new_plan
      | [] => .error "index out of bounds"
    | .unpivot _ ids vals _ _ =>
      let combined_dependencies :=
        dedupList (plan.requiredColumns.flatten ++ input.requiredColumns.flatten)
      match input.children with
      | grand_upstream_plan :: _ =>
        let input_columns := dedupList ((ids ++ vals).map Expr.name)
        let can_be_pushed_down :=
          input_columns.filter fun e => combined_dependencies.contains e
        if grand_upstream_plan.schema.length == can_be_pushed_down.length then
          .ok (Transformed.no plan)
        else
          let new_subprojection :=
            Plan.project grand_upstream_plan (can_be_pushed_down.map Expr.column)
          let new_upstream := input.withNewChildren [new_subprojection]
          let new_plan := plan.withNewChildren [new_upstream]
          retryNode reenter new_plan
      | [] => .error "index out of bounds"
    | .concat ci co =>
      let combined_dependencies :=
        dedupList (plan.requiredColumns.flatten ++ input.requiredColumns.flatten)
      match input.children with
      | grand_upstream_plan :: _ =>
        if grand_upstream_plan.schema.length == combined_dependencies.length then
          .ok (Transformed.no plan)
        else
          let pushdown_column_exprs := combined_dependencies.map Expr.column
          let new_left_subprojection := Plan.project ci pushdown_column_exprs
          let new_right_subprojection := Plan.project co pushdown_column_exprs
          let new_upstream :=
            input.withNewChildren [new_left_subprojection, new_right_subprojection]
          let new_plan := plan.withNewChildren [new_upstream]
          retryNode reenter new_plan
      | [] => .error "index out of bounds"
    | .union _ _ => .error "Union should have been optimized away"
    | .join jl jr _ _ _ =>
      match plan.requiredColumns with
      | [projection_dependencies] =>
        match input.requiredColumns with
        | [left_dependencies, right_dependencies] =>
          let maybe_project_upstream_input := fun (side : Plan) (side_dependencies : List String) =>
            let upstream_names := dedupList side.schema
            let combined_dependencies := dedupList (side_dependencies ++
              upstream_names.filter fun n => projection_dependencies.contains n)
            if combined_dependencies.length < upstream_names.length then
              Transformed.yes (Plan.project side (combined_dependencies.map Expr.column))
            else
              Transformed.no side
          let new_left_upstream := maybe_project_upstream_input jl left_dependencies
          let new_right_upstream := maybe_project_upstream_input jr right_dependencies
          if !new_left_upstream.transformed && !new_right_upstream.transformed then
            .ok (Transformed.no plan)
          else
            let new_join :=
              input.withNewChildren [new_left_upstream.data, new_right_upstream.data]
            let new_plan := plan.withNewChildren [new_join]
            retryNode reenter new_plan
        | _ => .error "panic"
      | _ => .error "panic"
    | .distinct uu dcols =>
      match dcols with
      | none => .ok (Transformed.no plan)
      | some _ =>
        match plan.requiredColumns, input.requiredColumns with
        | plan_req_cols :: _, distinct_req_cols :: _ =>
          let new_extra_projection := Plan.project uu
            ((dedupList (plan_req_cols ++ distinct_req_cols)).map Expr.column)
          let new_distinct := input.withNewChildren [new_extra_projection]
          let new_plan := plan.withNewChildren [new_distinct]
          .ok (Transformed.yes new_plan)
        | _, _ => .error "index out of bounds"
    | .intersect _ _ => .ok (Transformed.no plan)
    | .pivot _ _ _ _ _ => .ok (Transformed.no plan)
    | .monotonicallyIncreasingId _ _ => .ok (Transformed.no plan)
    | .window _ _ => .ok (Transformed.no plan)
    | .sink _ => .error "Bad projection due to upstream sink node"
    | .subqueryAlias _ _ => .error "Alias should have been optimized away"

/-- `PushDownProjection::try_optimize_join` (lines 645-684): only Semi and
Anti joins are rewritten, only by projecting the right input, and only when
the right required set is strictly smaller than the right schema; re-enters
on the new join. -/
def tryOptimizeJoin (reenter : Plan → Except String (Transformed Plan))
    (jleft jright : Plan) (ty : JoinType)
    (plan : Plan) : Except String (Transformed Plan) :=
  if ty == .anti || ty == .semi then
    match (plan.requiredColumns)[1]? with
    | some right_required_cols =>
      if right_required_cols.length < jright.schema.length then
        let new_subprojection :=
          Plan.project jright (right_required_cols.map Expr.column)
        let new_join := plan.withNewChildren [jleft, new_subprojection]
        retryNode reenter new_join
      else
        .ok (Transformed.no plan)
    | none => .error "we expect 2 set of required columns for join"
  else
    .ok (Transformed.no plan)

/-- `PushDownProjection::try_optimize_node` (lines 714-734): dispatch on the
root operator kind. The fuel bounds the internal re-entry chain; exhaustion is
the designated error. -/
def tryOptimizeNode : Nat → Plan → Except String (Transformed Plan)
  | 0, _ => .error "fuel exhausted"
  | fuel + 1, plan =>
    match plan with
    | .project i ps => tryOptimizeProject (tryOptimizeNode fuel) i ps plan
    | .udfProject i _ _ => tryOptimizeUdfProject i plan
    | .aggregate i _ _ => tryOptimizeAggregation i plan
    | .join l r _ _ ty => tryOptimizeJoin (tryOptimizeNode fuel) l r ty plan
    | .pivot i _ _ _ _ => tryOptimizePivot i plan
    | _ => .ok (Transformed.no plan)

/-- `OptimizerRule::try_optimize` for `PushDownProjection` (lines 737-742):
`transform_down(plan, try_optimize_node)`, with a traversal fuel for the
driver and a re-entry fuel handed to each node-local rewrite chain. -/
def tryOptimize (driverFuel nodeFuel : Nat) (plan : Plan) :
    Except String (Transformed Plan) :=
  transformDownF Plan.children (fun p cs => .ok (p.withNewChildren cs))
    "fuel exhausted" (fun n => tryOptimizeNode nodeFuel n) driverFuel plan

/-! ### Helper lemmas about the rule -/

theorem orYes_transformed (x : Transformed T) (y : T) :
    (x.or (Transformed.yes y)).transformed = true := by
  by_cases hx : x.transformed <;> simp [Transformed.or, Transformed.yes, hx]

theorem retryNode_transformed (reenter : Plan → Except String (Transformed Plan))
    (np : Plan) (r : Transformed Plan)
    (h : retryNode reenter np = .ok r) : r.transformed = true := by
  unfold retryNode at h
  cases he : reenter np with
  | error e => rw [he] at h; simp [Except.map] at h
  | ok r' =>
    rw [he] at h
    simp [Except.map] at h
    rw [← h]
    exact orYes_transformed r' np

theorem projectionIsNoop_zip_all (s : List String) :
    ((List.zip (s.map Expr.column) s).all fun p =>
      match p.1 with
      | .column n => n == p.2
      | _ => false) = true := by
  induction s with
  | nil => rfl
  | cons a s ih => simp_all [List.zip_cons_cons]

theorem projectionIsNoop_map_column (s : List String) :
    projectionIsNoop (s.map Expr.column) s = true := by
  simp [projectionIsNoop, projectionIsNoop_zip_all]

theorem dynMapChildren_untransformed_data (children : τ → List τ)
    (rep : τ → List τ → Except ε τ) (t : τ) (f : τ → Except ε (Transformed τ))
    (nc : Transformed τ) (h : dynMapChildren children rep t f = .ok nc)
    (hf : nc.transformed = false) : nc.data = t := by
  simp only [dynMapChildren] at h
  split at h
  · simp at h
    rw [← h]
    rfl
  · cases hm : mapUntilStopAndCollect f (children t) with
    | error e => rw [hm] at h; simp [Except.bind] at h
    | ok m =>
      rw [hm] at h
      simp only [Except.bind] at h
      split at h
      · rename_i hmt
        unfold Transformed.map_data at h
        cases hrep : rep t m.data with
        | error e => rw [hrep] at h; simp [Except.map] at h
        | ok d =>
          rw [hrep] at h
          simp [Except.map] at h
          rw [← h] at hf
          simp_all
      · simp at h
        rw [← h]

/-! ### Claim theorems for the push-down rule -/

/-- Claim C7: a projection that selects exactly the input schema's columns in
order is elided — `try_optimize_project` re-enters on the bare input and
reports `changed = true`: the result is the input after any further rewrite of
the input (or the input itself, flagged `yes`, when no further rewrite
triggers). -/
theorem c7_noop_elision (reenter : Plan → Except String (Transformed Plan))
    (input : Plan) (projs : List Expr) (plan : Plan)
    (hlen : projs.length = input.schema.length)
    (hcols : ∀ (i : Nat) (h1 : i < projs.length) (h2 : i < input.schema.length),
      projs.get ⟨i, h1⟩ = Expr.column (input.schema.get ⟨i, h2⟩)) :
    tryOptimizeProject reenter input projs plan = retryNode reenter input
    ∧ (∀ r', reenter input = .ok r' →
        tryOptimizeProject reenter input projs plan =
          .ok (if r'.transformed then r' else Transformed.yes input))
    ∧ (∀ r, tryOptimizeProject reenter input projs plan = .ok r →
        r.transformed = true) := by
  have hp : projs = input.schema.map Expr.column := by
    apply List.ext_get (by simp [hlen])
    intro i h1 h2
    simpa using hcols i h1 (by simpa using h2)
  subst hp
  have hmain : tryOptimizeProject reenter input (input.schema.map Expr.column) plan
      = retryNode reenter input := by
    unfold tryOptimizeProject
    simp [projectionIsNoop_map_column]
  refine ⟨hmain, ?_, ?_⟩
  · intro r' hr'
    rw [hmain]
    unfold retryNode
    simp [hr', Except.map, Transformed.or]
  · intro r hr
    rw [hmain] at hr
    exact retryNode_transformed reenter input r hr

/-- Witness for C7: the two-column no-op projection over an in-memory source
is elided with `changed = true`. -/
theorem c7_noop_elision_witness :
    tryOptimizeProject (tryOptimizeNode 1) (.source ["a", "b"] .inMemory)
        [Expr.column "a", Expr.column "b"]
        (.project (.source ["a", "b"] .inMemory) [Expr.column "a", Expr.column "b"])
      = retryNode (tryOptimizeNode 1) (.source ["a", "b"] .inMemory)
    ∧ tryOptimizeProject (tryOptimizeNode 1) (.source ["a", "b"] .inMemory)
        [Expr.column "a", Expr.column "b"]
        (.project (.source ["a", "b"] .inMemory) [Expr.column "a", Expr.column "b"])
      = .ok (Transformed.yes (.source ["a", "b"] .inMemory)) := by
  have h := c7_noop_elision (tryOptimizeNode 1) (.source ["a", "b"] .inMemory)
    [Expr.column "a", Expr.column "b"]
    (.project (.source ["a", "b"] .inMemory) [Expr.column "a", Expr.column "b"])
    (by rfl)
    (by
      intro i h1 h2
      simp only [List.length_cons, List.length_nil] at h1
      interval_cases i <;> rfl)
  exact ⟨h.1, by simpa using h.2.1 (Transformed.no (.source ["a", "b"] .inMemory)) rfl⟩

/-- Claim C8: stand-alone pruning at a Join rewrites only Semi and Anti joins
(part 1: every other join type is returned unchanged with `changed = false`),
only when the right required-column set is strictly smaller than the right
schema (part 2: otherwise unchanged), and then only by inserting a synthesized
projection below the right input, keeping the left child (part 3). -/
theorem c8_join_standalone (reenter : Plan → Except String (Transformed Plan))
    (jl jr : Plan) (ty : JoinType) (plan : Plan) :
    (ty ≠ .semi → ty ≠ .anti →
      tryOptimizeJoin reenter jl jr ty plan = .ok (Transformed.no plan))
    ∧ (∀ rr, (ty = .semi ∨ ty = .anti) →
        (plan.requiredColumns)[1]? = some rr →
        ¬ rr.length < jr.schema.length →
        tryOptimizeJoin reenter jl jr ty plan = .ok (Transformed.no plan))
    ∧ (∀ rr, (ty = .semi ∨ ty = .anti) →
        (plan.requiredColumns)[1]? = some rr →
        rr.length < jr.schema.length →
        tryOptimizeJoin reenter jl jr ty plan =
          retryNode reenter
            (plan.withNewChildren [jl, Plan.project jr (rr.map Expr.column)])) := by
  refine ⟨?_, ?_, ?_⟩
  · intro h1 h2
    have hty : (ty == JoinType.anti || ty == JoinType.semi) = false := by
      cases ty <;> simp_all
    unfold tryOptimizeJoin
    simp [hty]
  · intro rr hty hget hlen
    have hty' : (ty == JoinType.anti || ty == JoinType.semi) = true := by
      rcases hty with h | h <;> simp [h]
    unfold tryOptimizeJoin
    simp [hty', hget, hlen]
  · intro rr hty hget hlen
    have hty' : (ty == JoinType.anti || ty == JoinType.semi) = true := by
      rcases hty with h | h <;> simp [h]
    unfold tryOptimizeJoin
    simp [hty', hget, hlen]

/-- Witness for C8 at concrete joins: an inner join is untouched; a semi join
whose right requirements cover the right schema is untouched; a semi join
with a strictly smaller right requirement set gets the synthesized right
projection. -/
theorem c8_join_standalone_witness :
    tryOptimizeJoin (tryOptimizeNode 1) (.source ["a"] .inMemory)
        (.source ["b", "c"] .inMemory) .inner
        (.join (.source ["a"] .inMemory) (.source ["b", "c"] .inMemory)
          [Expr.column "a"] [Expr.column "b"] .inner)
      = .ok (Transformed.no (.join (.source ["a"] .inMemory)
          (.source ["b", "c"] .inMemory) [Expr.column "a"] [Expr.column "b"] .inner))
    ∧ tryOptimizeJoin (tryOptimizeNode 1) (.source ["a"] .inMemory)
        (.source ["b", "c"] .inMemory) .semi
        (.join (.source ["a"] .inMemory) (.source ["b", "c"] .inMemory)
          [Expr.column "a"] [Expr.column "b", Expr.column "c"] .semi)
      = .ok (Transformed.no (.join (.source ["a"] .inMemory)
          (.source ["b", "c"] .inMemory) [Expr.column "a"]
          [Expr.column "b", Expr.column "c"] .semi))
    ∧ tryOptimizeJoin (tryOptimizeNode 1) (.source ["a"] .inMemory)
        (.source ["b", "c"] .inMemory) .semi
        (.join (.source ["a"] .inMemory) (.source ["b", "c"] .inMemory)
          [Expr.column "a"] [Expr.column "b"] .semi)
      = retryNode (tryOptimizeNode 1)
          ((Plan.join (.source ["a"] .inMemory) (.source ["b", "c"] .inMemory)
              [Expr.column "a"] [Expr.column "b"] .semi).withNewChildren
            [.source ["a"] .inMemory,
             Plan.project (.source ["b", "c"] .inMemory) [Expr.column "b"]]) := by
  refine ⟨?_, ?_, ?_⟩
  · exact (c8_join_standalone (tryOptimizeNode 1) (.source ["a"] .inMemory)
      (.source ["b", "c"] .inMemory) .inner _).1 (by simp) (by simp)
  · exact (c8_join_standalone (tryOptimizeNode 1) (.source ["a"] .inMemory)
      (.source ["b", "c"] .inMemory) .semi _).2.1 ["b", "c"] (Or.inl rfl) rfl (by decide)
  · exact (c8_join_standalone (tryOptimizeNode 1) (.source ["a"] .inMemory)
      (.source ["b", "c"] .inMemory) .semi _).2.2 ["b"] (Or.inl rfl) rfl (by decide)

/-- Claim C10: a Project directly above a Distinct over an explicit column
list always rewrites — when the projection is not a no-op it returns, with no
size check of any kind, `changed = true` and the plan with a projection of the
union of the projection's and the distinct's required columns inserted below
the Distinct (part 1, which holds even when that union covers every column of
the distinct's input); and every successful result reports `changed = true`
(part 2, covering also the no-op case, which is rewritten by elision
instead). -/
theorem c10_distinct_always_rewrites
    (reenter : Plan → Except String (Transformed Plan))
    (uu : Plan) (dcols projs : List Expr) :
    (projectionIsNoop projs uu.schema = false →
      tryOptimizeProject reenter (.distinct uu (some dcols)) projs
          (.project (.distinct uu (some dcols)) projs)
        = .ok (Transformed.yes (.project
            (.distinct (.project uu
              ((dedupList (dedupList (Expr.requiredColumnsL projs) ++
                dedupList (Expr.requiredColumnsL dcols))).map Expr.column))
              (some dcols))
            projs)))
    ∧ (∀ r, tryOptimizeProject reenter (.distinct uu (some dcols)) projs
          (.project (.distinct uu (some dcols)) projs) = .ok r →
        r.transformed = true) := by
  have key : projectionIsNoop projs uu.schema = false →
      tryOptimizeProject reenter (.distinct uu (some dcols)) projs
          (.project (.distinct uu (some dcols)) projs)
        = .ok (Transformed.yes (.project
            (.distinct (.project uu
              ((dedupList (dedupList (Expr.requiredColumnsL projs) ++
                dedupList (Expr.requiredColumnsL dcols))).map Expr.column))
              (some dcols))
            projs)) := by
    intro hn
    unfold tryOptimizeProject
    simp [Plan.schema, hn, Plan.requiredColumns, Plan.withNewChildren]
  refine ⟨key, ?_⟩
  intro r h
  by_cases hn : projectionIsNoop projs uu.schema = true
  · have hmain : tryOptimizeProject reenter (.distinct uu (some dcols)) projs
        (.project (.distinct uu (some dcols)) projs)
        = retryNode reenter (.distinct uu (some dcols)) := by
      unfold tryOptimizeProject
      simp [Plan.schema, hn]
    rw [hmain] at h
    exact retryNode_transformed _ _ _ h
  · have hfalse : projectionIsNoop projs uu.schema = false := by
      simpa using hn
    rw [key hfalse] at h
    injection h with h2
    rw [← h2]
    rfl

/-- Witness for C10: a non-no-op projection over a Distinct on an explicit
column list gets the union projection inserted below the Distinct. -/
theorem c10_distinct_always_rewrites_witness :
    tryOptimizeProject (tryOptimizeNode 1)
        (.distinct (.source ["a", "b", "c"] .inMemory) (some [Expr.column "a"]))
        [Expr.column "a", Expr.column "b"]
        (.project (.distinct (.source ["a", "b", "c"] .inMemory)
          (some [Expr.column "a"])) [Expr.column "a", Expr.column "b"])
      = .ok (Transformed.yes (.project
          (.distinct (.project (.source ["a", "b", "c"] .inMemory)
            [Expr.column "a", Expr.column "b"])
            (some [Expr.column "a"]))
          [Expr.column "a", Expr.column "b"])) :=
  (c10_distinct_always_rewrites (tryOptimizeNode 1)
    (.source ["a", "b", "c"] .inMemory) [Expr.column "a"]
    [Expr.column "a", Expr.column "b"]).1 rfl

/-- Claim C5 counterexample: on `Project([b, a], Scan[a, b, c])` the rule
populates the pushdown columns as `["b", "a"]` — the required-column set in
first-occurrence order of the projection — which is not the order-preserving
subsequence `["a", "b"]` of the source schema (the pruned scan *schema* is
that subsequence). -/
theorem c5_counterexample :
    tryOptimize 10 10
        (.project (.source ["a", "b", "c"] (.physical ⟨none, some 7⟩))
          [Expr.column "b", Expr.column "a"])
      = .ok ⟨.project (.source ["a", "b"] (.physical ⟨some ["b", "a"], some 7⟩))
          [Expr.column "b", Expr.column "a"], true, .cont⟩
    ∧ ["a", "b", "c"].filter (fun f => (["b", "a"] : List String).contains f)
      = ["a", "b"]
    ∧ (["b", "a"] : List String) ≠ ["a", "b"] :=
  ⟨rfl, rfl, by decide⟩

/-- Claim C5 (amended): the Projection-over-physical-Source branch fires iff
the required-column set is strictly smaller than the source schema (parts 1
and 2); when it fires, the pushdown `columns` list is exactly the required
columns in first-occurrence order of the projection's expressions, the new
source *schema* is the order-preserving subsequence of the old schema
restricted to the required columns, and the other pushdown fields are
preserved; membership-wise the two listings agree whenever the required
columns name source columns (part 3). -/
theorem c5_scan_pushdown_columns
    (reenter : Plan → Except String (Transformed Plan))
    (s : List String) (pd : Pushdowns) (projs : List Expr)
    (hnoop : projectionIsNoop projs s = false) :
    (((dedupList (Expr.requiredColumnsL projs)).length < s.length →
      tryOptimizeProject reenter (.source s (.physical pd)) projs
          (.project (.source s (.physical pd)) projs)
        = retryNode reenter (.project
            (.source
              (s.filter fun f => (dedupList (Expr.requiredColumnsL projs)).contains f)
              (.physical (pd.with_columns (some (dedupList (Expr.requiredColumnsL projs))))))
            projs)))
    ∧ (¬ (dedupList (Expr.requiredColumnsL projs)).length < s.length →
      tryOptimizeProject reenter (.source s (.physical pd)) projs
          (.project (.source s (.physical pd)) projs)
        = .ok (Transformed.no (.project (.source s (.physical pd)) projs)))
    ∧ ((∀ n ∈ dedupList (Expr.requiredColumnsL projs), n ∈ s) →
      ∀ n, n ∈ (s.filter fun f => (dedupList (Expr.requiredColumnsL projs)).contains f)
        ↔ n ∈ dedupList (Expr.requiredColumnsL projs)) := by
  refine ⟨?_, ?_, ?_⟩
  · intro hlen
    unfold tryOptimizeProject
    simp [Plan.schema, hnoop, Plan.requiredColumns, Plan.withNewChildren, hlen]
  · intro hlen
    unfold tryOptimizeProject
    simp [Plan.schema, hnoop, Plan.requiredColumns, Plan.withNewChildren, hlen]
  · intro hsub n
    simp only [List.mem_filter]
    constructor
    · intro hn
      have := hn.2
      simpa [List.contains, List.elem_eq_mem] using this
    · intro hn
      exact ⟨hsub n hn, by simpa [List.contains, List.elem_eq_mem] using hn⟩

/-- Witness for C5 (amended) at concrete inputs: a strict projection gets the
pushdown in required order; a covering projection is left alone; membership
of the pruned schema agrees with the required set. -/
theorem c5_scan_pushdown_columns_witness :
    tryOptimizeProject (tryOptimizeNode 1)
        (.source ["a", "b", "c"] (.physical ⟨none, some 7⟩))
        [Expr.column "b"]
        (.project (.source ["a", "b", "c"] (.physical ⟨none, some 7⟩)) [Expr.column "b"])
      = retryNode (tryOptimizeNode 1) (.project
          (.source ["b"] (.physical ⟨some ["b"], some 7⟩)) [Expr.column "b"])
    ∧ tryOptimizeProject (tryOptimizeNode 1)
        (.source ["a", "b"] (.physical ⟨none, none⟩))
        [Expr.column "b", Expr.column "a"]
        (.project (.source ["a", "b"] (.physical ⟨none, none⟩))
          [Expr.column "b", Expr.column "a"])
      = .ok (Transformed.no (.project (.source ["a", "b"] (.physical ⟨none, none⟩))
          [Expr.column "b", Expr.column "a"]))
    ∧ ∀ n, n ∈ (["a", "b", "c"].filter fun f => (["b"] : List String).contains f)
        ↔ n ∈ (["b"] : List String) := by
  refine ⟨?_, ?_, ?_⟩
  · exact (c5_scan_pushdown_columns (tryOptimizeNode 1) ["a", "b", "c"]
      ⟨none, some 7⟩ [Expr.column "b"] rfl).1 (by decide)
  · exact (c5_scan_pushdown_columns (tryOptimizeNode 1) ["a", "b"]
      ⟨none, none⟩ [Expr.column "b", Expr.column "a"] rfl).2.1 (by decide)
  · exact (c5_scan_pushdown_columns (tryOptimizeNode 1) ["a", "b", "c"]
      ⟨none, some 7⟩ [Expr.column "b"] rfl).2.2 (by decide)

/-- Failing input for claim C2: a projection listing the UDF output column
before a passthrough column, directly above a `UDFProject`. -/
def c2Input : Plan :=
  .project (.udfProject (.source ["a", "c"] .inMemory)
      (.alias (.function "udf" true [Expr.column "c"]) "u") [Expr.column "a"])
    [Expr.column "u", Expr.column "a"]

/-- What the rule returns on `c2Input`: the UDF-inline branch collapses the
projection into a reconstructed `UDFProject`, whose schema lists the
passthrough columns before the UDF column. -/
def c2Output : Plan :=
  .udfProject (.source ["a", "c"] .inMemory)
    (.alias (.function "udf" true [Expr.column "c"]) "u") [Expr.column "a"]

/-- Claim C2 is violated by the code: on `c2Input` (schema `[u, a]`) the rule
succeeds and returns `c2Output` whose schema is `[a, u]` — the output schema
is a permutation, not the same ordered list. The UDF-inline branch partitions
the merged projection into (UDF, passthroughs), losing the original column
order; since `Project([u, a], U)` and `Project([a, u], U)` collapse to the
same `UDFProject`, no fixed field order of `UDFProject` could preserve both
schemas. -/
theorem c2_schema_not_preserved :
    tryOptimize 10 10 c2Input = .ok ⟨c2Output, true, .cont⟩
    ∧ Plan.schema c2Input = ["u", "a"]
    ∧ Plan.schema c2Output = ["a", "u"]
    ∧ (["u", "a"] : List String) ≠ ["a", "u"] :=
  ⟨rfl, rfl, rfl, by decide⟩

/-- C6 counterexample input: a projection over a Distinct on an explicit
column list, where the projection names a strict subset of the source
columns. -/
def c6Input : Plan :=
  .project (.distinct (.source ["a", "b", "c"] (.physical ⟨none, none⟩))
      (some [Expr.column "a"]))
    [Expr.column "a", Expr.column "b"]

/-- Result of the first application of the rule to `c6Input`: the source is
pruned to `[a, b]` below the Distinct, so the root projection — checked
against the *old* distinct schema `[a, b, c]` — survives, although it is now
a no-op. -/
def c6Once : Plan :=
  .project (.distinct (.source ["a", "b"] (.physical ⟨some ["a", "b"], none⟩))
      (some [Expr.column "a"]))
    [Expr.column "a", Expr.column "b"]

/-- Result of the second application: the now-no-op root projection is
elided. -/
def c6Twice : Plan :=
  .distinct (.source ["a", "b"] (.physical ⟨some ["a", "b"], none⟩))
    (some [Expr.column "a"])

/-- Claim C6 counterexample: the push-down rule is not idempotent — applying
`try_optimize` to the plan it produced on `c6Input` yields a structurally
different plan (the second pass elides a projection that the first pass's
column pruning turned into a no-op). -/
theorem c6_counterexample :
    tryOptimize 10 10 c6Input = .ok ⟨c6Once, true, .cont⟩
    ∧ tryOptimize 10 10 c6Once = .ok ⟨c6Twice, true, .cont⟩
    ∧ c6Once ≠ c6Twice :=
  ⟨rfl, rfl, fun h => Plan.noConfusion h⟩

theorem tryOptimizeUdfProject_untransformed (input plan : Plan)
    (r : Transformed Plan) (h : tryOptimizeUdfProject input plan = .ok r)
    (hf : r.transformed = false) : r.data = plan := by
  unfold tryOptimizeUdfProject at h
  split at h
  · split at h
    · injection h with h2
      rw [← h2] at hf
      simp [Transformed.yes] at hf
    · injection h with h2
      rw [← h2]
      rfl
  · simp at h

theorem tryOptimizeAggregation_untransformed (input plan : Plan)
    (r : Transformed Plan) (h : tryOptimizeAggregation input plan = .ok r)
    (hf : r.transformed = false) : r.data = plan := by
  unfold tryOptimizeAggregation at h
  split at h
  · split at h
    · injection h with h2
      rw [← h2] at hf
      simp [Transformed.yes] at hf
    · injection h with h2
      rw [← h2]
      rfl
  · simp at h

theorem tryOptimizePivot_untransformed (input plan : Plan)
    (r : Transformed Plan) (h : tryOptimizePivot input plan = .ok r)
    (hf : r.transformed = false) : r.data = plan := by
  unfold tryOptimizePivot at h
  split at h
  · split at h
    · injection h with h2
      rw [← h2] at hf
      simp [Transformed.yes] at hf
    · injection h with h2
      rw [← h2]
      rfl
  · simp at h

theorem tryOptimizeJoin_untransformed
    (reenter : Plan → Except String (Transformed Plan)) (jl jr : Plan)
    (ty : JoinType) (plan : Plan) (r : Transformed Plan)
    (h : tryOptimizeJoin reenter jl jr ty plan = .ok r)
    (hf : r.transformed = false) : r.data = plan := by
  unfold tryOptimizeJoin at h
  split at h
  · split at h
    · split at h
      · exact absurd (retryNode_transformed _ _ _ h) (by simp [hf])
      · injection h with h2
        rw [← h2]
        rfl
    · simp at h
  · injection h with h2
    rw [← h2]
    rfl

theorem tryOptimizeProject_untransformed
    (reenter : Plan → Except String (Transformed Plan)) (input : Plan)
    (projs : List Expr) (plan : Plan) (r : Transformed Plan)
    (h : tryOptimizeProject reenter input projs plan = .ok r)
    (hf : r.transformed = false) : r.data = plan := by
  simp only [tryOptimizeProject] at h
  repeat' split at h
  all_goals
    first
    | exact absurd (retryNode_transformed _ _ _ h) (by simp [hf])
    | (injection h with h2; rw [← h2]; rfl)
    | (injection h with h2; rw [← h2] at hf; simp [Transformed.yes] at hf)
    | simp at h

theorem tryOptimizeNode_untransformed (fuel : Nat) (p : Plan)
    (r : Transformed Plan) (h : tryOptimizeNode fuel p = .ok r)
    (hf : r.transformed = false) : r.data = p := by
  cases fuel with
  | zero => simp [tryOptimizeNode] at h
  | succ fuel =>
    cases p with
    | project i ps => exact tryOptimizeProject_untransformed _ _ _ _ _ h hf
    | udfProject i pe pc => exact tryOptimizeUdfProject_untransformed _ _ _ h hf
    | aggregate i ags gb => exact tryOptimizeAggregation_untransformed _ _ _ h hf
    | join l rt lo ro ty => exact tryOptimizeJoin_untransformed _ _ _ _ _ _ h hf
    | pivot i gb pc vc ns => exact tryOptimizePivot_untransformed _ _ _ h hf
    | _ =>
      simp [tryOptimizeNode] at h
      rw [← h]
      rfl

/-- Claim C6 (amended): the rule is not idempotent — the counterexample shows
a second application strictly simplifying the first application's output.
What does hold, making the fixed points of the surrounding driver loop
genuine: whenever `try_optimize_node` (part 1) or the full `try_optimize`
pass (part 2) returns `changed = false`, the returned plan is exactly the
input plan, so a plan on which the rule reports no change is reproduced
verbatim by any further application. -/
theorem c6_unchanged_results_are_identity :
    (∀ (fuel : Nat) (p : Plan) (r : Transformed Plan),
      tryOptimizeNode fuel p = .ok r → r.transformed = false → r.data = p)
    ∧ (∀ (df nf : Nat) (p : Plan) (r : Transformed Plan),
      tryOptimize df nf p = .ok r → r.transformed = false → r.data = p) := by
  constructor
  · exact tryOptimizeNode_untransformed
  · intro df nf p r h hf
    cases df with
    | zero => simp [tryOptimize, transformDownF] at h
    | succ df =>
      unfold tryOptimize transformDownF at h
      cases h0 : tryOptimizeNode nf p with
      | error e => rw [h0] at h; simp [Except.bind] at h
      | ok r0 =>
        rw [h0] at h
        simp only [Except.bind] at h
        unfold Transformed.transform_children at h
        split at h
        · rename_i htnr
          cases hd : dynMapChildren Plan.children
              (fun p cs => Except.ok (p.withNewChildren cs)) r0.data
              (fun c => transformDownF Plan.children
                (fun p cs => Except.ok (p.withNewChildren cs)) "fuel exhausted"
                (fun n => tryOptimizeNode nf n) df c) with
          | error e => simp only [hd] at h; simp [Except.map] at h
          | ok d =>
            simp only [hd] at h
            simp [Except.map] at h
            rw [← h] at hf
            simp only [Bool.or_eq_false_iff] at hf
            have h0' : r0.data = p :=
              tryOptimizeNode_untransformed nf p r0 h0 hf.2
            have hd' : d.data = r0.data :=
              dynMapChildren_untransformed_data _ _ _ _ _ hd hf.1
            rw [← h]
            simp [hd', h0']
        · rename_i htnr
          simp at h
          rw [← h] at hf ⊢
          simp at hf ⊢
          exact tryOptimizeNode_untransformed nf p r0 h0 hf
        · rename_i htnr
          simp at h
          rw [← h] at hf ⊢
          exact tryOptimizeNode_untransformed nf p r0 h0 hf

/-- Witness for C6 (amended): the second application's output is a genuine
fixed point — the rule reproduces it verbatim with `changed = false`. -/
theorem c6_unchanged_results_are_identity_witness :
    (Transformed.mk c6Twice false TreeNodeRecursion.cont).data = c6Twice :=
  c6_unchanged_results_are_identity.2 10 10 c6Twice
    ⟨c6Twice, false, .cont⟩ rfl rfl

end DaftSpec
